import Mathlib

set_option maxHeartbeats 1000000

namespace QScripts

/-! # Definitions -/

/-- `strncmp(str, key, strlen(key)) == 0`: `key` is a character-wise prefix of
`str` (a C string never contains NUL, so a shorter `str` cannot match). -/
def strncmpEq : List Char → List Char → Bool
  | [], _ => true
  | _ :: _, [] => false
  | k :: ks, c :: cs => if k = c then strncmpEq ks cs else false

/-- `get_value` from `parse_deps_for_script` (qscripts.cpp:280-289): if `key`
is a prefix of `str`, return `""` when the prefix is followed by end-of-string
and otherwise the remainder after skipping one character (whatever it is). -/
def get_value (str key : List Char) : Option (List Char) :=
  if strncmpEq key str then
    match str.drop key.length with
    | [] => some []
    | _ :: rest => some rest
  else none

/-- Whitespace trimmed by `qstring::trim2`. -/
def isWhite (c : Char) : Bool := c = ' ' || c = '\t' || c = '\r' || c = '\x0c'

/-- Modelled from the spec: "Lines are trimmed" — `qstring::trim2` is part of
the host SDK, not of the sources.  Leading and trailing blanks are removed. -/
def trim (s : List Char) : List Char :=
  ((s.dropWhile isWhite).reverse.dropWhile isWhite).reverse

/-- Modelled from the spec: PathResolver `dirname` — `qdirname` is provided by
the host SDK.  Everything before the last separator; `"."` if there is none. -/
def dirnameOf (p : List Char) : List Char :=
  let r := p.reverse.dropWhile (fun c => c != '/')
  if r = [] then ['.'] else (r.drop 1).reverse

/-- Modelled from the spec: PathResolver `make_absolute(value, base_dir)` —
`make_abs_path` lives in `utils_impl.cpp`, which is not among the sources.
A path that is already absolute is kept, otherwise it is resolved against the
base directory. -/
def make_abs_path (p base : List Char) : List Char :=
  if p.head? = some '/' then p else base ++ '/' :: p

/-- Modelled from the spec: basename of the script file without its extension
(`get_basename_and_ext` lives in `utils_impl.cpp`, not among the sources). -/
def basenameNoExt (p : List Char) : List Char :=
  let b := (p.reverse.takeWhile (fun c => c != '/')).reverse
  let r := b.reverse.dropWhile (fun c => c != '.')
  if r = [] then b else (r.drop 1).reverse

/-- Modelled from the spec: the extension used to look a script engine up
("matching a file extension to a registered engine"); `none` when the file
has no dot (`get_file_ext` returns `nullptr` there). -/
def get_file_ext (p : List Char) : Option (List Char) :=
  if p.contains '.' then some (p.reverse.takeWhile (fun c => c != '.')).reverse
  else none

/-- Find the first closing `$` in the text after (at least) one inner
character: returns the inner characters consumed and the text after the
closing `$`.  `none` when the remaining text admits no closing `$`
(a newline stops `.` from matching). -/
def splitInner : List Char → Option (List Char × List Char)
  | [] => none
  | c :: cs =>
      if c = '$' then some ([], cs)
      else if c = '\n' then none
      else match splitInner cs with
           | some (i, r) => some (c :: i, r)
           | none => none

/-- The lazy match of `(.+?)\$` at the current position: the first character
is always part of the inner text (`+` needs one), the closing `$` is the
next one found. -/
def findClose : List Char → Option (List Char × List Char)
  | [] => none
  | c :: rest =>
      if c = '\n' then none
      else match splitInner rest with
           | some (i, r) => some (c :: i, r)
           | none => none

/-- The scanning recursion of `std::regex_replace`, with explicit fuel so the
recursion is structural (every step strictly consumes input, so fuel equal to
the input length suffices; see `expandCoreAux_congr`). -/
def expandCoreAux (repl : List Char → List Char) : Nat → List Char → List Char
  | 0, l => l
  | Nat.succ _, [] => []
  | Nat.succ n, c :: cs =>
      if c = '$' then
        match findClose cs with
        | some (inner, rest) => repl inner ++ expandCoreAux repl n rest
        | none => c :: expandCoreAux repl n cs
      else c :: expandCoreAux repl n cs

/-- One pass of `std::regex_replace` over the whole string: each match of
`\$(.+?)\$` is replaced by `repl` applied to the inner text; the replacement
is not re-scanned. -/
def expandCore (repl : List Char → List Char) (l : List Char) : List Char :=
  expandCoreAux repl l.length l

/-- The ambient data the replacement callback reads besides the expand
context: the process environment, `selected_script.has_dep` (projected to the
`pkg_base` the callback uses) and `selected_script.pkg_base`. -/
structure ExpandEnv where
  env : List Char → Option (List Char)
  depPkgBase : List Char → Option (List Char)
  selPkgBase : List Char

/-- `expand_ctx_t` (qscripts.cpp:236-246). -/
structure expand_ctx_t where
  script_file : List Char
  main_file : Bool
  base_dir : List Char
  pkg_base : List Char
  reload_cmd : List Char
deriving DecidableEq

def pkgmodnameTok : List Char := ['p','k','g','m','o','d','n','a','m','e']

def pkgbaseTok : List Char := ['p','k','g','b','a','s','e']

def basenameTok : List Char := ['b','a','s','e','n','a','m','e']

def envTok : List Char := ['e','n','v',':']

/-- The replacement callback of `expand_string` (qscripts.cpp:399-440).
Every token test is a `strncmp` prefix test, in the source's order; an
unrecognized token falls through to `return m.str(1)` — the raw inner text. -/
def expandRepl (E : ExpandEnv) (ctx : expand_ctx_t) (m1 : List Char) : List Char :=
  if strncmpEq pkgmodnameTok m1 then
    let pb := match E.depPkgBase ctx.script_file with
              | none => E.selPkgBase
              | some pb => pb
    if strncmpEq pb ctx.script_file then
      let s := ctx.script_file.drop (pb.length + 1)
      let s := s.map (fun c => if c = '/' then '.' else c)
      let r := s.reverse.dropWhile (fun c => c != '.')
      if r = [] then s else (r.drop 1).reverse
    else []
  else if strncmpEq pkgbaseTok m1 then ctx.pkg_base
  else if strncmpEq basenameTok m1 then basenameNoExt ctx.script_file
  else if strncmpEq envTok m1 then
    match E.env (m1.drop 4) with
    | some v => v
    | none => m1
  else m1

/-- `expand_string` (qscripts.cpp:394-442). -/
def expand_string (E : ExpandEnv) (ctx : expand_ctx_t) (input : List Char) : List Char :=
  expandCore (expandRepl E ctx) input

/-- `filemod_status_e` (qscripts.cpp:34-39). -/
inductive filemod_status_e where
  | not_found
  | not_modified
  | modified
deriving DecidableEq

/-- `fileinfo_t` (qscripts.cpp:42-109): a path with its last known
modification time; `0` means unknown. -/
structure fileinfo_t where
  file_path : List Char
  modified_time : Nat
deriving DecidableEq

/-- `script_info_t` (qscripts.cpp:113-124): a `fileinfo_t` with a reload
command and a package base. -/
structure script_info_t where
  file_path : List Char
  modified_time : Nat
  reload_cmd : List Char
  pkg_base : List Char
deriving DecidableEq

/-- `active_script_info_t` (qscripts.cpp:131-212): the active script with its
trigger file, manifest (dependency-index) files and dependency map. -/
structure active_script_info_t where
  file_path : List Char
  modified_time : Nat
  reload_cmd : List Char
  pkg_base : List Char
  trigger_file : fileinfo_t
  b_keep_trigger_file : Bool
  dep_indices : List fileinfo_t
  dep_scripts : List (List Char × script_info_t)
deriving DecidableEq

/-- The ambient world the plugin consults: file modification times
(`get_file_modification_time`, modelled from the spec: FileStat
`mtime(path) -> (found, t)`, it writes the output only on success), the text
lines of each readable file (`qfopen`/`qgetline`), the process environment
(`qgetenv`), whether a script engine is registered for an extension
(`find_extlang_by_ext`) and the outcome of `eval_snippet` on a dep's engine. -/
structure World where
  mtime : List Char → Option Nat
  lines : List Char → Option (List (List Char))
  env : List Char → Option (List Char)
  extlangOk : List Char → Bool
  evalSnippet : List Char → List Char → Bool

/-- `fileinfo_t::get_modification_status` with `update_mtime = true`
(qscripts.cpp:84-103): returns the updated stored time and the status. -/
def get_modification_status (fs : List Char → Option Nat) (path : List Char)
    (mtime : Nat) : Nat × filemod_status_e :=
  match fs path with
  | none => (0, .not_found)
  | some cur => if cur = mtime then (mtime, .not_modified) else (cur, .modified)

/-- `active_script_info_t::is_any_dep_index_modified` (qscripts.cpp:158-168):
probe each manifest file in order, updating stored times, and stop at the
first result that is not `not_modified`. -/
def is_any_dep_index_modified (fs : List Char → Option Nat) :
    List fileinfo_t → List fileinfo_t × filemod_status_e
  | [] => ([], .not_modified)
  | fi :: rest =>
      let p := get_modification_status fs fi.file_path fi.modified_time
      let fi' : fileinfo_t := ⟨fi.file_path, p.1⟩
      match p.2 with
      | .not_modified =>
          let q := is_any_dep_index_modified fs rest
          (fi' :: q.1, q.2)
      | s => (fi' :: rest, s)

/-- `active_script_info_t::add_dep_index` (qscripts.cpp:170-179). -/
def add_dep_index (w : World) (m : List Char) (S : active_script_info_t) :
    active_script_info_t :=
  match w.mtime m with
  | none => S
  | some t => {S with dep_indices := S.dep_indices ++ [⟨m, t⟩]}

/-- `active_script_info_t::operator=` (qscripts.cpp:181-191): copy path and
time from the script, clear the dependency map and the manifest list;
everything else (trigger, keep flag, reload command, package base) is kept. -/
def assignScript (S : active_script_info_t) (sc : script_info_t) :
    active_script_info_t :=
  {S with file_path := sc.file_path, modified_time := sc.modified_time,
          dep_scripts := [], dep_indices := []}

/-- `active_script_info_t::clear` (qscripts.cpp:193-202). -/
def clearScript : active_script_info_t :=
  ⟨[], 0, [], [], ⟨[], 0⟩, false, [], []⟩

/-- `active_script_info_t::invalidate_all_scripts` (qscripts.cpp:204-211):
zero the main script's time and every dependency's time (the manifest files
keep theirs). -/
def invalidate_all_scripts (S : active_script_info_t) : active_script_info_t :=
  {S with modified_time := 0,
          dep_scripts := S.dep_scripts.map (fun kv => (kv.1, {kv.2 with modified_time := 0}))}

/-- `unordered_map::find`-style lookup in the dependency map
(`active_script_info_t::has_dep`, qscripts.cpp:146-150). -/
def lookupDep : List (List Char × script_info_t) → List Char → Option script_info_t
  | [], _ => none
  | (k, v) :: rest, p => if k = p then some v else lookupDep rest p

/-- `unordered_map::operator[]` followed by assignment: replace the value of
an existing key or append a new entry. -/
def insertDep (l : List (List Char × script_info_t)) (k : List Char)
    (v : script_info_t) : List (List Char × script_info_t) :=
  match l with
  | [] => [(k, v)]
  | (k', v') :: rest => if k' = k then (k, v) :: rest else (k', v') :: insertDep rest k v

/-- The `ExpandEnv` induced by the live `selected_script` state: environment
lookup, `has_dep(...)->pkg_base` and `selected_script.pkg_base`. -/
def expandEnvOf (w : World) (S : active_script_info_t) : ExpandEnv :=
  ⟨w.env, fun p => (lookupDep S.dep_scripts p).map (fun d => d.pkg_base), S.pkg_base⟩

def depsSuffix : List Char := ['.','d','e','p','s','.','q','s','c','r','i','p','t','s']

def projSuffix : List Char := ['.','p','r','o','j','.','q','s','c','r','i','p','t','s']

def pkgbaseKey : List Char := ['/','p','k','g','b','a','s','e']

def reloadKey : List Char := ['/','r','e','l','o','a','d']

def triggerKey : List Char := ['/','t','r','i','g','g','e','r','f','i','l','e']

def keepKey : List Char := ['/','k','e','e','p']

/-- The manifest probed for a script: `<script>.deps.qscripts` if readable,
else `<script>.proj.qscripts` (qscripts.cpp:260-270). -/
def manifest_path_for (w : World) (script : List Char) : Option (List Char) :=
  let d := script ++ depsSuffix
  if (w.lines d).isSome then some d
  else
    let p := script ++ projSuffix
    if (w.lines p).isSome then some p else none

/-- Comment detection (qscripts.cpp:297): `//`, `#` or `;` (the empty-line
test is done by the caller first). -/
def isCommentLine (line : List Char) : Bool :=
  strncmpEq ['/','/'] line || line.head? = some '#' || line.head? = some ';'

/-- The expanded-and-resolved dependency path of a (trimmed) manifest line
(qscripts.cpp:332-334): the context's `script_file` is first overwritten with
the raw line, then the line is expanded and made absolute. -/
def resolveDepLine (w : World) (S : active_script_info_t) (ctx : expand_ctx_t)
    (line : List Char) : List Char :=
  make_abs_path (expand_string (expandEnvOf w S) {ctx with script_file := line} line)
    ctx.base_dir

/-- One line of the manifest loop (qscripts.cpp:292-352).  `recurse` is the
recursive `parse_deps_for_script` call performed for a dependency line. -/
def processLine (w : World)
    (recurse : expand_ctx_t → active_script_info_t → active_script_info_t × Bool)
    (acc : expand_ctx_t × active_script_info_t) (rawLine : List Char) :
    expand_ctx_t × active_script_info_t :=
  let ctx := acc.1
  let S := acc.2
  let line := trim rawLine
  if line = [] || isCommentLine line then acc
  else
    match get_value line pkgbaseKey with
    | some val =>
        if ctx.main_file then
          ({ctx with pkg_base := make_abs_path val ctx.base_dir}, S)
        else acc
    | none =>
    match get_value line reloadKey with
    | some val =>
        if ctx.main_file then ({ctx with reload_cmd := val}, S) else acc
    | none =>
    match get_value line triggerKey with
    | some tv0 =>
        -- The `/keep` sub-prefix is handled before — and independently of —
        -- the `ctx.main_file` test (qscripts.cpp:318-322).
        let tvS : List Char × active_script_info_t :=
          match get_value tv0 keepKey with
          | some keep => (keep, {S with b_keep_trigger_file := true})
          | none => (tv0, S)
        if ctx.main_file then
          -- `trigger_file.refresh(raw)` probes the raw value (keeping the old
          -- time when the probe fails), then the stored path is expanded and
          -- made absolute (qscripts.cpp:326-327).
          let S2 := {tvS.2 with trigger_file :=
            ⟨tvS.1, match w.mtime tvS.1 with
                    | some t => t
                    | none => tvS.2.trigger_file.modified_time⟩}
          (ctx, {S2 with trigger_file :=
            ⟨make_abs_path (expand_string (expandEnvOf w S2) ctx S2.trigger_file.file_path)
               ctx.base_dir,
             S2.trigger_file.modified_time⟩})
        else (ctx, tvS.2)
    | none =>
        let ctx1 := {ctx with script_file := line}
        let expanded := resolveDepLine w S ctx line
        match w.mtime expanded with
        | none => (ctx1, S)
        | some mt =>
            let dep : script_info_t := ⟨expanded, mt, ctx1.reload_cmd, ctx1.pkg_base⟩
            let S1 := {S with dep_scripts := insertDep S.dep_scripts expanded dep}
            (ctx1, (recurse {ctx1 with script_file := expanded, main_file := false} S1).1)

/-- `parse_deps_for_script` (qscripts.cpp:258-356).  The source recursion is
not cycle-guarded (spec §9), so the embedding carries fuel; `fuel = 0` stands
for the diverging run and returns the state unchanged. -/
def parse_deps_for_script (w : World) :
    Nat → expand_ctx_t → active_script_info_t → active_script_info_t × Bool
  | 0 => fun _ S => (S, false)
  | Nat.succ n => fun ctx S =>
      match manifest_path_for w ctx.script_file with
      | none => (S, false)
      | some m =>
          let ctx1 := {ctx with base_dir := dirnameOf m}
          let S1 := add_dep_index w m S
          let r := ((w.lines m).getD []).foldl
            (processLine w (parse_deps_for_script w n)) (ctx1, S1)
          (r.2, true)

/-- `toScriptInfo`: the `script_info_t` slice of the active script, as passed
to `set_selected_script(selected_script)` from the monitor. -/
def toScriptInfo (S : active_script_info_t) : script_info_t :=
  ⟨S.file_path, S.modified_time, S.reload_cmd, S.pkg_base⟩

/-- `set_selected_script` (qscripts.cpp:364-372): assign the script, then
parse its manifests with a fresh top-level expand context. -/
def set_selected_script (w : World) (fuel : Nat) (sc : script_info_t)
    (S : active_script_info_t) : active_script_info_t :=
  (parse_deps_for_script w fuel ⟨sc.file_path, true, [], [], []⟩ (assignScript S sc)).1

/-- `execute_reload_directive` (qscripts.cpp:444-475): look the engine up by
extension, expand the dep's reload command with a context holding only the
dep's path, and evaluate the snippet. -/
def execute_reload_directive (w : World) (S : active_script_info_t)
    (dep : script_info_t) : Bool :=
  let ext := match get_file_ext dep.file_path with
             | some e => e
             | none => []
  if !w.extlangOk ext then false
  else w.evalSnippet dep.file_path
    (expand_string (expandEnvOf w S) ⟨dep.file_path, false, [], [], []⟩ dep.reload_cmd)

/-- The state effect of `execute_script_sync` (qscripts.cpp:486-547): the
script's modification time is refreshed from the filesystem before anything
else; the engine calls themselves do not touch the graph state. -/
def execute_script_sync_state (w : World) (S : active_script_info_t) :
    active_script_info_t :=
  match w.mtime S.file_path with
  | some t => {S with modified_time := t}
  | none => S

/-- The state effect of `execute_script` (qscripts.cpp:477-483): with undo the
host runs the named action asynchronously and nothing changes during the
tick; otherwise `execute_script_sync` runs. -/
def execute_script_state (w : World) (withUndo : Bool)
    (S : active_script_info_t) : active_script_info_t :=
  if withUndo then S else execute_script_sync_state w S

/-- The trigger-file step of the tick (qscripts.cpp:635-649): in trigger mode,
probe the trigger; unless it is `modified` the tick breaks.  On `modified`
the trigger file is deleted unless `b_keep_trigger_file`, and the main
script's time is zeroed to force execution.  Returns the updated state,
whether the tick continues, and whether the trigger file was deleted. -/
def triggerPhase (w : World) (S : active_script_info_t) :
    active_script_info_t × Bool × Bool :=
  if S.trigger_file.file_path = [] then (S, true, false)
  else
    let p := get_modification_status w.mtime S.trigger_file.file_path
      S.trigger_file.modified_time
    let S1 := {S with trigger_file := ⟨S.trigger_file.file_path, p.1⟩}
    if p.2 = filemod_status_e.modified then
      ({S1 with modified_time := 0}, true, !S1.b_keep_trigger_file)
    else (S1, false, false)

/-- The dependency loop of the tick (qscripts.cpp:684-701): probe every dep in
iteration order, updating its stored time; on `modified` with a reload
directive run the directive and, if it fails, stop the loop (the remaining
deps keep their stale times).  Returns the updated entries, whether any dep
was modified, the dep whose reload failed (if any) and the list of deps whose
reload directive was run.  (`Sctx` feeds the expander; the loop only updates
stored times, which the expander never reads, so passing the pre-loop state is
faithful.) -/
def depsLoopGo (w : World) (Sctx : active_script_info_t) :
    List (List Char × script_info_t) →
    List (List Char × script_info_t) × Bool × Option (List Char) × List (List Char)
  | [] => ([], false, none, [])
  | (p, d) :: rest =>
      let q := get_modification_status w.mtime d.file_path d.modified_time
      let d' : script_info_t := {d with modified_time := q.1}
      if q.2 = filemod_status_e.modified then
        if d'.reload_cmd ≠ [] then
          if execute_reload_directive w Sctx d' then
            let r := depsLoopGo w Sctx rest
            ((p, d') :: r.1, true, r.2.2.1, p :: r.2.2.2)
          else ((p, d') :: rest, true, some p, [p])
        else
          let r := depsLoopGo w Sctx rest
          ((p, d') :: r.1, true, r.2.2.1, r.2.2.2)
      else
        let r := depsLoopGo w Sctx rest
        ((p, d') :: r.1, r.2.1, r.2.2.1, r.2.2.2)

/-- What one monitor tick produced: the state after the tick, the monitor
flag, the returned delay, and the tick's observable actions. -/
structure TickResult where
  S : active_script_info_t
  active : Bool
  ret : Nat
  executedMain : Bool
  reloadsRun : List (List Char)
  reloadFailedAt : Option (List Char)
  uiRefreshed : Bool
  trigDeleted : Bool
deriving DecidableEq

/-- The lower half of the tick, from the dependency loop on
(qscripts.cpp:681-717): run the loop, abort on a failed reload, then probe the
main script and execute it when it — or some dependency — changed. -/
def tickDeps (w : World) (interval : Nat) (withUndo : Bool) (active : Bool)
    (del : Bool) (S3 : active_script_info_t) : TickResult :=
  let L := depsLoopGo w S3 S3.dep_scripts
  let S4 := {S3 with dep_scripts := L.1}
  match L.2.2.1 with
  | some p => ⟨S4, active, interval, false, L.2.2.2, some p, false, del⟩
  | none =>
      let q := get_modification_status w.mtime S4.file_path S4.modified_time
      let S5 := {S4 with modified_time := q.1}
      if q.2 = filemod_status_e.not_found then
        ⟨clearScript, false, interval, false, L.2.2.2, none, false, del⟩
      else if L.2.1 || q.2 = filemod_status_e.modified then
        ⟨execute_script_state w withUndo S5, active, interval, true,
         L.2.2.2, none, false, del⟩
      else ⟨S5, active, interval, false, L.2.2.2, none, false, del⟩

/-- `filemon_timer_cb` (qscripts.cpp:626-719), one tick.  `interval` is
`opt_change_interval`, `active` is `m_b_filemon_timer_active`, `fuel` bounds
the manifest re-parse recursion. -/
def filemon_timer_cb (w : World) (interval : Nat) (withUndo : Bool) (fuel : Nat)
    (active : Bool) (S : active_script_info_t) : TickResult :=
  if active = false ∨ S.file_path = [] then
    ⟨S, active, interval, false, [], none, false, false⟩
  else
    let t := triggerPhase w S
    if t.2.1 = false then ⟨t.1, active, interval, false, [], none, false, false⟩
    else
      let S1 := t.1
      let del := t.2.2
      let ix := is_any_dep_index_modified w.mtime S1.dep_indices
      let S2 := {S1 with dep_indices := ix.1}
      if ix.2 = filemod_status_e.modified then
        -- re-parse: clear deps, `set_selected_script(selected_script)`,
        -- invalidate everything, refresh the UI, come back in 1 ms
        let S3 := {S2 with dep_scripts := []}
        ⟨invalidate_all_scripts (set_selected_script w fuel (toScriptInfo S3) S3),
         active, 1, false, [], none, true, del⟩
      else
        let S3 := if ix.2 = filemod_status_e.not_found ∧ S2.dep_scripts ≠ [] then
                    {S2 with dep_scripts := []}
                  else S2
        tickDeps w interval withUndo active del S3

/-- The fields of the active script that `parse_deps_for_script` never
writes: the main script's path and time, its reload command and its
`pkg_base`. -/
def sameCore (a b : active_script_info_t) : Prop :=
  a.file_path = b.file_path ∧ a.modified_time = b.modified_time ∧
  a.reload_cmd = b.reload_cmd ∧ a.pkg_base = b.pkg_base

/-- A world whose manifest names the main script itself. -/
def w1 : World :=
  ⟨fun p => if p = "/a.py".toList then some 5
            else if p = "/a.py.deps.qscripts".toList then some 10 else none,
   fun p => if p = "/a.py.deps.qscripts".toList then some ["/a.py".toList] else none,
   fun _ => none, fun _ => true, fun _ _ => true⟩

/-- A world whose only manifest lists the dependency `/b.py` — no line
resolves to the main script `/a.py`. -/
def wC1 : World :=
  ⟨fun p => if p = "/a.py".toList then some 5
            else if p = "/a.py.deps.qscripts".toList then some 10
            else if p = "/b.py".toList then some 7 else none,
   fun p => if p = "/a.py.deps.qscripts".toList then some ["/b.py".toList] else none,
   fun _ => none, fun _ => true, fun _ _ => true⟩

def Sc1 : active_script_info_t :=
  ⟨"/a.py".toList, 5, [], [], ⟨[], 0⟩, false, [], []⟩

/-- A world whose top-level manifest sets `/pkgbase /p` and lists the
dependency `b.py` (which resolves to `/b.py`). -/
def w8 : World :=
  ⟨fun p => if p = "/a.py".toList then some 5
            else if p = "/a.py.deps.qscripts".toList then some 10
            else if p = "/b.py".toList then some 7 else none,
   fun p => if p = "/a.py.deps.qscripts".toList then
              some ["/pkgbase /p".toList, "b.py".toList]
            else none,
   fun _ => none, fun _ => true, fun _ _ => true⟩

/-- The C2 scenario: the stored manifest time is `10` but the filesystem says
`11`, so the probe reports `modified`. -/
def wC2 : World :=
  ⟨fun p => if p = "/a.py".toList then some 5
            else if p = "/a.py.deps.qscripts".toList then some 11 else none,
   fun p => if p = "/a.py.deps.qscripts".toList then some [] else none,
   fun _ => none, fun _ => true, fun _ _ => true⟩

def Sc2 : active_script_info_t :=
  ⟨"/a.py".toList, 5, [], [], ⟨[], 0⟩, false,
   [⟨"/a.py.deps.qscripts".toList, 10⟩], []⟩

/-- The C3/C4 scenario: the dependency `/b.py` was modified (stored time `1`,
filesystem time `2`), it has a reload command, and `eval_snippet` fails. -/
def wFail : World :=
  ⟨fun p => if p = "/a.py".toList then some 5
            else if p = "/a.py.deps.qscripts".toList then some 10
            else if p = "/b.py".toList then some 2 else none,
   fun _ => none, fun _ => none, fun _ => true, fun _ _ => false⟩

def ScFail : active_script_info_t :=
  ⟨"/a.py".toList, 5, [], [], ⟨[], 0⟩, false,
   [⟨"/a.py.deps.qscripts".toList, 10⟩],
   [("/b.py".toList, ⟨"/b.py".toList, 1, "r".toList, []⟩)]⟩

def E0 : ExpandEnv := ⟨fun _ => none, fun _ => none, []⟩

def ctx0 : expand_ctx_t := ⟨[], true, [], [], []⟩

def wEmpty : World :=
  ⟨fun _ => none, fun _ => none, fun _ => none, fun _ => false, fun _ _ => false⟩

def recNone : expand_ctx_t → active_script_info_t → active_script_info_t × Bool :=
  fun _ S => (S, false)

def ctxTop : expand_ctx_t :=
  ⟨['/','a','.','p','y'], true, ['/','b','a','s','e'], [], []⟩

def ctxSub : expand_ctx_t :=
  ⟨['/','b','.','p','y'], false, ['/','b','a','s','e'], [], []⟩

/-- A world where the trigger file exists only at its absolute path
`/base/go.txt`; the raw manifest value `go.txt` does not stat. -/
def wTrig : World :=
  ⟨fun p => if p = "/base/go.txt".toList then some 9 else none,
   fun _ => none, fun _ => none, fun _ => false, fun _ _ => false⟩

/-! # Theorems -/

theorem splitInner_some_length :
    ∀ l i r, splitInner l = some (i, r) → r.length < l.length := by
  intro l
  induction l with
  | nil => intro i r h; simp [splitInner] at h
  | cons c cs ih =>
      intro i r h
      simp only [splitInner] at h
      by_cases hc : c = '$'
      · rw [if_pos hc] at h
        simp only [Option.some.injEq, Prod.mk.injEq] at h
        obtain ⟨h1, h2⟩ := h
        subst h2
        simp
      · rw [if_neg hc] at h
        by_cases hn : c = '\n'
        · rw [if_pos hn] at h; exact absurd h (by simp)
        · rw [if_neg hn] at h
          rcases h' : splitInner cs with _ | ⟨i', r'⟩ <;> rw [h'] at h
          · exact absurd h (by simp)
          · simp only [Option.some.injEq, Prod.mk.injEq] at h
            obtain ⟨h1, h2⟩ := h
            subst h2
            have := ih i' r' h'
            simp only [List.length_cons]
            omega

theorem findClose_some_length :
    ∀ l i r, findClose l = some (i, r) → r.length < l.length := by
  intro l i r h
  match l with
  | [] => simp [findClose] at h
  | c :: cs =>
      simp only [findClose] at h
      by_cases hn : c = '\n'
      · rw [if_pos hn] at h; exact absurd h (by simp)
      · rw [if_neg hn] at h
        rcases h' : splitInner cs with _ | ⟨i', r'⟩ <;> rw [h'] at h
        · exact absurd h (by simp)
        · simp only [Option.some.injEq, Prod.mk.injEq] at h
          obtain ⟨h1, h2⟩ := h
          subst h2
          have := splitInner_some_length cs i' r' h'
          simp only [List.length_cons]
          omega

/-- Fuel does not matter as soon as it covers the input length. -/
theorem expandCoreAux_congr (repl : List Char → List Char) :
    ∀ n m l, l.length ≤ n → l.length ≤ m →
      expandCoreAux repl n l = expandCoreAux repl m l := by
  intro n
  induction n with
  | zero =>
      intro m l hn _
      have : l = [] := List.length_eq_zero.mp (Nat.le_zero.mp hn)
      subst this
      cases m <;> rfl
  | succ n ih =>
      intro m l hn hm
      match l with
      | [] => cases m <;> rfl
      | c :: cs =>
          match m with
          | 0 => exact absurd hm (by simp)
          | Nat.succ m' =>
              simp only [List.length_cons, Nat.succ_le_succ_iff] at hn hm
              simp only [expandCoreAux]
              by_cases hc : c = '$'
              · rw [if_pos hc, if_pos hc]
                rcases hfc : findClose cs with _ | ⟨inner, rest⟩
                · dsimp only
                  rw [ih m' cs hn hm]
                · have hlt := findClose_some_length cs inner rest hfc
                  dsimp only
                  rw [ih m' rest (by omega) (by omega)]
              · rw [if_neg hc, if_neg hc, ih m' cs hn hm]

theorem expandCoreAux_of_not_mem (repl : List Char → List Char) :
    ∀ (n : Nat) (l : List Char), '$' ∉ l → expandCoreAux repl n l = l := by
  intro n
  induction n with
  | zero => intro l _; rfl
  | succ n ih =>
      intro l h
      match l with
      | [] => rfl
      | c :: cs =>
          simp only [List.mem_cons, not_or] at h
          simp only [expandCoreAux]
          rw [if_neg (fun e => h.1 e.symm), ih cs h.2]

/-- A string without `$` is left unchanged by the regex replacement. -/
theorem expandCore_of_not_mem (repl : List Char → List Char) (l : List Char)
    (h : '$' ∉ l) : expandCore repl l = l :=
  expandCoreAux_of_not_mem repl l.length l h

theorem expandCoreAux_append (repl : List Char → List Char) :
    ∀ (pre : List Char) (n : Nat) (s : List Char), '$' ∉ pre →
      expandCoreAux repl (pre.length + n) (pre ++ s) =
        pre ++ expandCoreAux repl n s := by
  intro pre
  induction pre with
  | nil => intro n s _; simp
  | cons c cs ih =>
      intro n s h
      simp only [List.mem_cons, not_or] at h
      have hlen : (c :: cs).length + n = Nat.succ (cs.length + n) := by
        simp only [List.length_cons]; omega
      rw [hlen]
      simp only [List.cons_append, List.append_eq, expandCoreAux]
      rw [if_neg (fun e => h.1 e.symm), ih n s h.2]

/-- Scanning passes over a `$`-free prefix unchanged. -/
theorem expandCore_append (repl : List Char → List Char) (pre s : List Char)
    (h : '$' ∉ pre) :
    expandCore repl (pre ++ s) = pre ++ expandCore repl s := by
  unfold expandCore
  rw [List.length_append, expandCoreAux_append repl pre s.length s h]

theorem splitInner_append :
    ∀ (l r : List Char), '$' ∉ l → '\n' ∉ l →
      splitInner (l ++ '$' :: r) = some (l, r) := by
  intro l
  induction l with
  | nil => intro r _ _; simp [splitInner]
  | cons c cs ih =>
      intro r h1 h2
      simp only [List.mem_cons, not_or] at h1 h2
      simp only [List.cons_append, List.append_eq, splitInner]
      rw [if_neg (fun e => h1.1 e.symm), if_neg (fun e => h2.1 e.symm), ih r h1.2 h2.2]

theorem findClose_append (c : Char) (tl r : List Char)
    (h1 : '$' ∉ c :: tl) (h2 : '\n' ∉ c :: tl) :
    findClose ((c :: tl) ++ '$' :: r) = some (c :: tl, r) := by
  simp only [List.mem_cons, not_or] at h1 h2
  simp only [List.cons_append, findClose]
  rw [if_neg (fun e => h2.1 e.symm), splitInner_append tl r h1.2 h2.2]

/-- The effect of one `$inner$` match at the head of the scan. -/
theorem expandCore_token (repl : List Char → List Char) (inner rest : List Char)
    (hne : inner ≠ []) (h1 : '$' ∉ inner) (h2 : '\n' ∉ inner) :
    expandCore repl ('$' :: (inner ++ '$' :: rest)) =
      repl inner ++ expandCore repl rest := by
  match inner, hne with
  | c :: tl, _ =>
      have hfc := findClose_append c tl rest h1 h2
      show expandCoreAux repl (Nat.succ (c :: tl ++ '$' :: rest).length)
        ('$' :: (c :: tl ++ '$' :: rest)) = _
      simp only [expandCoreAux, if_pos rfl]
      rw [hfc]
      dsimp only
      rw [expandCoreAux_congr repl _ rest.length rest
        (by simp only [List.length_append, List.length_cons]; omega) (Nat.le_refl _)]
      rfl

theorem strncmpEq_append_self : ∀ k s, strncmpEq k (k ++ s) = true := by
  intro k
  induction k with
  | nil => intro s; rfl
  | cons c cs ih =>
      intro s
      simp only [List.cons_append, List.append_eq, strncmpEq, if_true]
      exact ih s

theorem strncmpEq_true_exists : ∀ k s, strncmpEq k s = true → ∃ t, s = k ++ t := by
  intro k
  induction k with
  | nil => intro s _; exact ⟨s, rfl⟩
  | cons c cs ih =>
      intro s h
      match s with
      | [] => exact absurd h (by simp [strncmpEq])
      | c' :: s' =>
          simp only [strncmpEq] at h
          by_cases e : c = c'
          · subst e
            rw [if_pos rfl] at h
            obtain ⟨t, ht⟩ := ih s' h
            exact ⟨t, by simp [ht]⟩
          · rw [if_neg e] at h
            exact absurd h (by simp)

/-- An unset environment variable makes the `env:` branch of the replacement
callback fall through to the unknown-token case: the raw inner text. -/
theorem expandRepl_env_unset (E : ExpandEnv) (ctx : expand_ctx_t)
    (name : List Char) (h : E.env name = none) :
    expandRepl E ctx (envTok ++ name) = envTok ++ name := by
  have h1 : strncmpEq pkgmodnameTok (envTok ++ name) = false := by
    simp [pkgmodnameTok, envTok, strncmpEq]
  have h2 : strncmpEq pkgbaseTok (envTok ++ name) = false := by
    simp [pkgbaseTok, envTok, strncmpEq]
  have h3 : strncmpEq basenameTok (envTok ++ name) = false := by
    simp [basenameTok, envTok, strncmpEq]
  have h4 : (envTok ++ name).drop 4 = name := by simp [envTok]
  simp only [expandRepl, h1, h2, h3, strncmpEq_append_self, h4, h]
  simp

theorem sameCore_refl (a : active_script_info_t) : sameCore a a :=
  ⟨rfl, rfl, rfl, rfl⟩

theorem sameCore_trans {a b c : active_script_info_t}
    (h1 : sameCore a b) (h2 : sameCore b c) : sameCore a c :=
  ⟨h1.1.trans h2.1, h1.2.1.trans h2.2.1, h1.2.2.1.trans h2.2.2.1,
   h1.2.2.2.trans h2.2.2.2⟩

theorem processLine_sameCore (w : World)
    (recurse : expand_ctx_t → active_script_info_t → active_script_info_t × Bool)
    (hrec : ∀ c s, sameCore ((recurse c s).1) s)
    (acc : expand_ctx_t × active_script_info_t) (l : List Char) :
    sameCore ((processLine w recurse acc l).2) acc.2 := by
  unfold processLine
  dsimp only
  split
  · exact sameCore_refl _
  · split
    · split
      · exact sameCore_refl _
      · exact sameCore_refl _
    · split
      · split
        · exact sameCore_refl _
        · exact sameCore_refl _
      · split
        · -- `/triggerfile` line: only trigger fields and the keep flag change
          split
          · split <;> exact ⟨rfl, rfl, rfl, rfl⟩
          · split <;> exact ⟨rfl, rfl, rfl, rfl⟩
        · -- dependency line
          split
          · exact sameCore_refl _
          · exact sameCore_trans (hrec _ _) ⟨rfl, rfl, rfl, rfl⟩

theorem foldl_processLine_sameCore (w : World)
    (recurse : expand_ctx_t → active_script_info_t → active_script_info_t × Bool)
    (hrec : ∀ c s, sameCore ((recurse c s).1) s) :
    ∀ (ls : List (List Char)) (acc : expand_ctx_t × active_script_info_t),
      sameCore ((ls.foldl (processLine w recurse) acc).2) acc.2 := by
  intro ls
  induction ls with
  | nil => intro acc; exact sameCore_refl _
  | cons l ls ih =>
      intro acc
      rw [List.foldl_cons]
      exact sameCore_trans (ih _) (processLine_sameCore w recurse hrec acc l)

theorem add_dep_index_sameCore (w : World) (m : List Char)
    (S : active_script_info_t) : sameCore (add_dep_index w m S) S := by
  unfold add_dep_index
  rcases w.mtime m with _ | t
  · exact sameCore_refl _
  · exact ⟨rfl, rfl, rfl, rfl⟩

/-- The parser never writes the active script's own path, time, reload
command or `pkg_base`. -/
theorem parse_sameCore (w : World) :
    ∀ (fuel : Nat) (ctx : expand_ctx_t) (S : active_script_info_t),
      sameCore ((parse_deps_for_script w fuel ctx S).1) S := by
  intro fuel
  induction fuel with
  | zero => intro ctx S; exact sameCore_refl _
  | succ n ih =>
      intro ctx S
      simp only [parse_deps_for_script]
      rcases hm : manifest_path_for w ctx.script_file with _ | m
      · exact sameCore_refl _
      · dsimp only
        exact sameCore_trans
          (foldl_processLine_sameCore w _ (fun c s => ih c s) _ _)
          (add_dep_index_sameCore w m S)

theorem insertDep_keys :
    ∀ (l : List (List Char × script_info_t)) (k : List Char) (v : script_info_t)
      (q : List Char), q ∈ (insertDep l k v).map Prod.fst →
        q = k ∨ q ∈ l.map Prod.fst := by
  intro l
  induction l with
  | nil =>
      intro k v q hq
      unfold insertDep at hq
      simp only [List.map_cons, List.map_nil, List.mem_singleton] at hq
      exact Or.inl hq
  | cons kv rest ih =>
      intro k v q hq
      obtain ⟨k', v'⟩ := kv
      simp only [insertDep] at hq
      by_cases hk : k' = k
      · rw [if_pos hk] at hq
        simp only [List.map_cons, List.mem_cons] at hq
        rcases hq with h | h
        · exact Or.inl h
        · right
          simp only [List.map_cons, List.mem_cons]
          exact Or.inr h
      · rw [if_neg hk] at hq
        simp only [List.map_cons, List.mem_cons] at hq
        rcases hq with h | h
        · right
          simp only [List.map_cons, List.mem_cons]
          exact Or.inl h
        · rcases ih k v q h with h' | h'
          · exact Or.inl h'
          · right
            simp only [List.map_cons, List.mem_cons]
            exact Or.inr h'

theorem add_dep_index_dep_scripts (w : World) (m : List Char)
    (S : active_script_info_t) :
    (add_dep_index w m S).dep_scripts = S.dep_scripts := by
  unfold add_dep_index
  rcases w.mtime m with _ | t <;> rfl

theorem manifest_lines_isSome (w : World) (s m : List Char)
    (h : manifest_path_for w s = some m) : (w.lines m).isSome = true := by
  unfold manifest_path_for at h
  by_cases hc1 : (w.lines (s ++ depsSuffix)).isSome = true
  · rw [if_pos hc1] at h
    obtain rfl : s ++ depsSuffix = m := by simpa using h
    exact hc1
  · rw [if_neg hc1] at h
    by_cases hc2 : (w.lines (s ++ projSuffix)).isSome = true
    · rw [if_pos hc2] at h
      obtain rfl : s ++ projSuffix = m := by simpa using h
      exact hc2
    · rw [if_neg hc2] at h
      exact absurd h (by simp)

/-- A single manifest line never inserts `mp` into the dependency map as long
as no line resolves to `mp`. -/
theorem processLine_keys (w : World)
    (recurse : expand_ctx_t → active_script_info_t → active_script_info_t × Bool)
    (mp : List Char)
    (hrec : ∀ c s, mp ∉ s.dep_scripts.map Prod.fst →
        mp ∉ ((recurse c s).1).dep_scripts.map Prod.fst)
    (acc : expand_ctx_t × active_script_info_t) (l : List Char)
    (hline : ∀ S ctx, resolveDepLine w S ctx (trim l) ≠ mp)
    (hacc : mp ∉ acc.2.dep_scripts.map Prod.fst) :
    mp ∉ ((processLine w recurse acc l).2).dep_scripts.map Prod.fst := by
  unfold processLine
  dsimp only
  split
  · exact hacc
  · split
    · split
      · exact hacc
      · exact hacc
    · split
      · split
        · exact hacc
        · exact hacc
      · split
        · split
          · split <;> exact hacc
          · split <;> exact hacc
        · split
          · exact hacc
          · refine hrec _ _ (fun hmem => ?_)
            rcases insertDep_keys _ _ _ _ hmem with h | h
            · exact hline acc.2 acc.1 h.symm
            · exact hacc h

theorem foldl_processLine_keys (w : World)
    (recurse : expand_ctx_t → active_script_info_t → active_script_info_t × Bool)
    (mp : List Char)
    (hrec : ∀ c s, mp ∉ s.dep_scripts.map Prod.fst →
        mp ∉ ((recurse c s).1).dep_scripts.map Prod.fst) :
    ∀ (ls : List (List Char)) (acc : expand_ctx_t × active_script_info_t),
      (∀ l ∈ ls, ∀ S ctx, resolveDepLine w S ctx (trim l) ≠ mp) →
      mp ∉ acc.2.dep_scripts.map Prod.fst →
      mp ∉ ((ls.foldl (processLine w recurse) acc).2).dep_scripts.map Prod.fst := by
  intro ls
  induction ls with
  | nil => intro acc _ hacc; exact hacc
  | cons l ls ih =>
      intro acc hls hacc
      rw [List.foldl_cons]
      exact ih _ (fun l' hl' => hls l' (List.mem_cons_of_mem _ hl'))
        (processLine_keys w recurse mp hrec acc l (hls l (List.mem_cons_self _ _)) hacc)

/-- If no manifest line of the world resolves to `mp`, parsing never puts
`mp` into the dependency map. -/
theorem parse_keys (w : World) (mp : List Char)
    (H : ∀ m ls, w.lines m = some ls → ∀ l ∈ ls, ∀ S ctx,
           resolveDepLine w S ctx (trim l) ≠ mp) :
    ∀ (fuel : Nat) (ctx : expand_ctx_t) (S : active_script_info_t),
      mp ∉ S.dep_scripts.map Prod.fst →
      mp ∉ ((parse_deps_for_script w fuel ctx S).1).dep_scripts.map Prod.fst := by
  intro fuel
  induction fuel with
  | zero => intro ctx S h; exact h
  | succ n ih =>
      intro ctx S h
      simp only [parse_deps_for_script]
      rcases hm : manifest_path_for w ctx.script_file with _ | m
      · exact h
      · dsimp only
        obtain ⟨ls, hls⟩ :=
          Option.isSome_iff_exists.mp (manifest_lines_isSome w _ m hm)
        simp only [hls, Option.getD_some]
        exact foldl_processLine_keys w _ mp (fun c s => ih c s) ls _
          (fun l hl => H m ls hls l hl)
          (by rw [add_dep_index_dep_scripts]; exact h)

theorem depsLoopGo_keys (w : World) (Sctx : active_script_info_t) :
    ∀ l, ((depsLoopGo w Sctx l).1).map Prod.fst = l.map Prod.fst := by
  intro l
  induction l with
  | nil => rfl
  | cons pd rest ih =>
      obtain ⟨p, d⟩ := pd
      simp only [depsLoopGo]
      split
      · split
        · split
          · simp [ih]
          · simp
        · simp [ih]
      · simp [ih]

theorem invalidate_all_keys (S : active_script_info_t) :
    (invalidate_all_scripts S).dep_scripts.map Prod.fst
      = S.dep_scripts.map Prod.fst := by
  simp [invalidate_all_scripts, List.map_map]

theorem execute_script_state_frame (w : World) (u : Bool)
    (S : active_script_info_t) :
    (execute_script_state w u S).dep_scripts = S.dep_scripts ∧
    (execute_script_state w u S).file_path = S.file_path := by
  unfold execute_script_state execute_script_sync_state
  split
  · exact ⟨rfl, rfl⟩
  · split
    · exact ⟨rfl, rfl⟩
    · exact ⟨rfl, rfl⟩

theorem triggerPhase_frame (w : World) (S : active_script_info_t) :
    (triggerPhase w S).1.dep_scripts = S.dep_scripts ∧
    (triggerPhase w S).1.file_path = S.file_path := by
  unfold triggerPhase
  split
  · exact ⟨rfl, rfl⟩
  · dsimp only
    split
    · exact ⟨rfl, rfl⟩
    · exact ⟨rfl, rfl⟩

/-- C1 counterexample: when a manifest line names the main script itself, the
parser records the main script in `dep_scripts` like any other dependency —
nothing excludes the main script's path from the map. -/
theorem c1_counterexample :
    "/a.py".toList ∈ (set_selected_script w1 2 ⟨"/a.py".toList, 5, [], []⟩
        clearScript).dep_scripts.map Prod.fst ∧
    (set_selected_script w1 2 ⟨"/a.py".toList, 5, [], []⟩ clearScript).file_path
      = "/a.py".toList := by
  refine ⟨by decide, by decide⟩

/-- An active script whose dependency keys avoid `mp` cannot map its own
path if its path is `mp`. -/
theorem keys_ne_file_path (T : active_script_info_t) (mp : List Char)
    (h1 : T.file_path = mp) (h2 : mp ∉ T.dep_scripts.map Prod.fst) :
    ∀ p ∈ T.dep_scripts.map Prod.fst, p ≠ T.file_path := by
  intro p hp he
  rw [he, h1] at hp
  exact h2 hp

/-- The lower half of the tick preserves "no dependency key equals the main
path". -/
theorem tickDeps_keys_inv (w : World) (interval : Nat) (withUndo : Bool)
    (active del : Bool) (S3 : active_script_info_t) (mp : List Char)
    (hfp : S3.file_path = mp) (hk : mp ∉ S3.dep_scripts.map Prod.fst) :
    ∀ p ∈ (tickDeps w interval withUndo active del S3).S.dep_scripts.map Prod.fst,
      p ≠ (tickDeps w interval withUndo active del S3).S.file_path := by
  unfold tickDeps
  dsimp only
  split
  · exact keys_ne_file_path _ mp hfp (by rw [depsLoopGo_keys]; exact hk)
  · split
    · intro p hp
      simp [clearScript] at hp
    · split
      · exact keys_ne_file_path _ mp
          ((execute_script_state_frame w withUndo _).2.trans hfp)
          (by rw [(execute_script_state_frame w withUndo _).1, depsLoopGo_keys]
              exact hk)
      · exact keys_ne_file_path _ mp hfp (by rw [depsLoopGo_keys]; exact hk)

/-- C1 (amended): `deps` never contains the main script's path **provided**
no manifest line (after expansion and path resolution) resolves to the main
script's path; under that assumption the invariant holds after `set_active`
and is preserved by every monitor tick.  Without the assumption it can fail
(see the counterexample): the parser does not special-case the main script. -/
theorem c1_amended (w : World) (mp : List Char)
    (H : ∀ m ls, w.lines m = some ls → ∀ l ∈ ls, ∀ S ctx,
           resolveDepLine w S ctx (trim l) ≠ mp) :
    (∀ (fuel : Nat) (sc : script_info_t) (S : active_script_info_t),
        sc.file_path = mp →
        mp ∉ (set_selected_script w fuel sc S).dep_scripts.map Prod.fst) ∧
    (∀ (interval : Nat) (withUndo : Bool) (fuel : Nat) (active : Bool)
        (S : active_script_info_t),
        S.file_path = mp → mp ∉ S.dep_scripts.map Prod.fst →
        ∀ p ∈ (filemon_timer_cb w interval withUndo fuel active
                 S).S.dep_scripts.map Prod.fst,
          p ≠ (filemon_timer_cb w interval withUndo fuel active S).S.file_path) := by
  have hset : ∀ (fuel : Nat) (sc : script_info_t) (S : active_script_info_t),
      mp ∉ (set_selected_script w fuel sc S).dep_scripts.map Prod.fst := by
    intro fuel sc S
    exact parse_keys w mp H fuel _ _ (by simp [assignScript])
  have hsetfp : ∀ (fuel : Nat) (sc : script_info_t) (S : active_script_info_t),
      (set_selected_script w fuel sc S).file_path = sc.file_path :=
    fun fuel sc S => (parse_sameCore w fuel _ _).1
  refine ⟨fun fuel sc S _ => hset fuel sc S, ?_⟩
  intro interval withUndo fuel active S hfp hk
  obtain ⟨htd, htf⟩ := triggerPhase_frame w S
  unfold filemon_timer_cb
  dsimp only
  split
  · exact keys_ne_file_path S mp hfp hk
  · split
    · exact keys_ne_file_path _ mp (htf.trans hfp) (by rw [htd]; exact hk)
    · split
      · refine keys_ne_file_path _ mp ?_ ?_
        · exact (hsetfp _ _ _).trans (htf.trans hfp)
        · rw [invalidate_all_keys]
          exact hset _ _ _
      · split
        · exact tickDeps_keys_inv w interval withUndo active _ _ mp
            (htf.trans hfp) (by simp)
        · exact tickDeps_keys_inv w interval withUndo active _ _ mp
            (htf.trans hfp) (by dsimp only; rw [htd]; exact hk)

theorem c1_amended_witness :
    "/a.py".toList ∉ (set_selected_script wC1 2 ⟨"/a.py".toList, 5, [], []⟩
        clearScript).dep_scripts.map Prod.fst ∧
    (∀ p ∈ (filemon_timer_cb wC1 500 false 2 true Sc1).S.dep_scripts.map Prod.fst,
        p ≠ (filemon_timer_cb wC1 500 false 2 true Sc1).S.file_path) := by
  have H : ∀ m ls, wC1.lines m = some ls → ∀ l ∈ ls,
      ∀ (S : active_script_info_t) (ctx : expand_ctx_t),
        resolveDepLine wC1 S ctx (trim l) ≠ "/a.py".toList := by
    intro m ls hm l hl S ctx
    by_cases hmM : m = "/a.py.deps.qscripts".toList
    · subst hmM
      simp only [wC1, if_pos rfl] at hm
      obtain rfl : ["/b.py".toList] = ls := by simpa using hm
      simp only [List.mem_singleton] at hl
      subst hl
      unfold resolveDepLine
      rw [show trim "/b.py".toList = "/b.py".toList from by decide]
      rw [show expand_string (expandEnvOf wC1 S)
            {ctx with script_file := "/b.py".toList} "/b.py".toList
          = "/b.py".toList from expandCore_of_not_mem _ _ (by decide)]
      unfold make_abs_path
      rw [if_pos (by decide : ("/b.py".toList.head? = some '/'))]
      decide
    · simp only [wC1] at hm
      rw [if_neg hmM] at hm
      exact absurd hm (by simp)
  exact ⟨(c1_amended wC1 _ H).1 2 ⟨"/a.py".toList, 5, [], []⟩ clearScript rfl,
         (c1_amended wC1 _ H).2 500 false 2 true Sc1 rfl (by decide)⟩

/-- C8 counterexample: after `set_active` on `/a.py`, whose top-level manifest
contains `/pkgbase /p`, the ActiveScript's own `pkg_base` field is still empty
— the directive only flows into the expand context and into the `pkg_base`
recorded on each dependency (here `/b.py` got `/p`). -/
theorem c8_counterexample :
    (set_selected_script w8 2 ⟨"/a.py".toList, 5, [], []⟩ clearScript).pkg_base
      = [] ∧
    ([] : List Char) ≠ "/p".toList ∧
    (lookupDep (set_selected_script w8 2 ⟨"/a.py".toList, 5, [], []⟩
        clearScript).dep_scripts "/b.py".toList).map (fun d => d.pkg_base)
      = some "/p".toList := by
  refine ⟨by decide, by decide, by decide⟩

/-- C8 (amended): parsing never writes the ActiveScript's own `pkg_base`
field — after `set_active` it keeps the value it had before (empty on a fresh
activation); the `/pkgbase` value is only recorded on the dependencies added
after the directive line. -/
theorem c8_amended :
    (∀ (w : World) (fuel : Nat) (ctx : expand_ctx_t) (S : active_script_info_t),
        (parse_deps_for_script w fuel ctx S).1.pkg_base = S.pkg_base) ∧
    (∀ (w : World) (fuel : Nat) (sc : script_info_t) (S : active_script_info_t),
        (set_selected_script w fuel sc S).pkg_base = S.pkg_base) := by
  constructor
  · intro w fuel ctx S
    exact (parse_sameCore w fuel ctx S).2.2.2
  · intro w fuel sc S
    exact (parse_sameCore w fuel _ (assignScript S sc)).2.2.2

/-- C2: in any tick that passes the gate and the trigger check and whose
manifest probe reports `modified`, the tick clears `deps`, re-runs
`set_selected_script` on the current script, invalidates the main script's
and every dependency's time (to `0`), refreshes the chooser, does not execute
the main script, and returns `1` instead of `interval`. -/
theorem c2_manifest_modified_tick (w : World) (interval : Nat) (withUndo : Bool)
    (fuel : Nat) (active : Bool) (S : active_script_info_t)
    (hactive : active = true) (hsel : S.file_path ≠ [])
    (htrig : (triggerPhase w S).2.1 = true)
    (hmod : (is_any_dep_index_modified w.mtime
        (triggerPhase w S).1.dep_indices).2 = filemod_status_e.modified) :
    (filemon_timer_cb w interval withUndo fuel active S =
      ⟨invalidate_all_scripts (set_selected_script w fuel
          (toScriptInfo {(triggerPhase w S).1 with
            dep_indices := (is_any_dep_index_modified w.mtime
              (triggerPhase w S).1.dep_indices).1,
            dep_scripts := []})
          {(triggerPhase w S).1 with
            dep_indices := (is_any_dep_index_modified w.mtime
              (triggerPhase w S).1.dep_indices).1,
            dep_scripts := []}),
        active, 1, false, [], none, true, (triggerPhase w S).2.2⟩) ∧
    (filemon_timer_cb w interval withUndo fuel active S).ret = 1 ∧
    (filemon_timer_cb w interval withUndo fuel active S).executedMain = false ∧
    (filemon_timer_cb w interval withUndo fuel active S).uiRefreshed = true ∧
    (filemon_timer_cb w interval withUndo fuel active S).S.modified_time = 0 ∧
    ∀ pd ∈ (filemon_timer_cb w interval withUndo fuel active S).S.dep_scripts,
      pd.2.modified_time = 0 := by
  have hgate : ¬ (active = false ∨ S.file_path = []) := by
    simp [hactive, hsel]
  unfold filemon_timer_cb
  dsimp only
  rw [if_neg hgate, if_neg (by simp [htrig]), if_pos hmod]
  refine ⟨rfl, rfl, rfl, rfl, rfl, ?_⟩
  intro pd hpd
  simp only [invalidate_all_scripts, List.mem_map] at hpd
  obtain ⟨kv, _, rfl⟩ := hpd
  rfl

theorem c2_witness :
    (Sc2.file_path ≠ [] ∧ (triggerPhase wC2 Sc2).2.1 = true ∧
     (is_any_dep_index_modified wC2.mtime
        (triggerPhase wC2 Sc2).1.dep_indices).2 = filemod_status_e.modified) ∧
    ((filemon_timer_cb wC2 500 false 2 true Sc2).ret = 1 ∧
     (filemon_timer_cb wC2 500 false 2 true Sc2).executedMain = false ∧
     (filemon_timer_cb wC2 500 false 2 true Sc2).uiRefreshed = true ∧
     (filemon_timer_cb wC2 500 false 2 true Sc2).S.modified_time = 0) :=
  ⟨⟨by decide, by decide, by decide⟩,
   by
    have h := c2_manifest_modified_tick wC2 500 false 2 true Sc2 rfl
      (by decide) (by decide) (by decide)
    exact ⟨h.2.1, h.2.2.1, h.2.2.2.1, h.2.2.2.2.1⟩⟩

/-- The lower half of the tick: when a reload failed, it returned `interval`
and did not execute the main script. -/
theorem tickDeps_failed_ret (w : World) (interval : Nat) (withUndo : Bool)
    (active del : Bool) (S3 : active_script_info_t) (p : List Char)
    (h : (tickDeps w interval withUndo active del S3).reloadFailedAt = some p) :
    (tickDeps w interval withUndo active del S3).ret = interval ∧
    (tickDeps w interval withUndo active del S3).executedMain = false := by
  unfold tickDeps at h ⊢
  dsimp only at h ⊢
  rcases hL : (depsLoopGo w S3 S3.dep_scripts).2.2.1 with _ | p'
  · rw [hL] at h
    dsimp only at h
    split at h
    · simp at h
    · split at h <;> simp at h
  · exact ⟨rfl, rfl⟩

/-- C3: in any tick in which some dependency's reload snippet failed, the
tick returns `interval` and the main script is not executed — even if the
main script's file was also modified. -/
theorem c3_reload_failure_aborts (w : World) (interval : Nat) (withUndo : Bool)
    (fuel : Nat) (active : Bool) (S : active_script_info_t) (p : List Char)
    (h : (filemon_timer_cb w interval withUndo fuel active S).reloadFailedAt
          = some p) :
    (filemon_timer_cb w interval withUndo fuel active S).ret = interval ∧
    (filemon_timer_cb w interval withUndo fuel active S).executedMain = false := by
  unfold filemon_timer_cb at h ⊢
  dsimp only at h ⊢
  by_cases hgate : (active = false ∨ S.file_path = [])
  · rw [if_pos hgate] at h
    simp at h
  · rw [if_neg hgate] at h ⊢
    by_cases htr : (triggerPhase w S).2.1 = false
    · rw [if_pos htr] at h
      simp at h
    · rw [if_neg htr] at h ⊢
      by_cases hmod : (is_any_dep_index_modified w.mtime
          (triggerPhase w S).1.dep_indices).2 = filemod_status_e.modified
      · rw [if_pos hmod] at h
        simp at h
      · rw [if_neg hmod] at h ⊢
        exact tickDeps_failed_ret w interval withUndo active _ _ p h

theorem c3_witness :
    (filemon_timer_cb wFail 500 false 2 true ScFail).reloadFailedAt
      = some "/b.py".toList ∧
    (filemon_timer_cb wFail 500 false 2 true ScFail).ret = 500 ∧
    (filemon_timer_cb wFail 500 false 2 true ScFail).executedMain = false :=
  ⟨by decide,
   c3_reload_failure_aborts wFail 500 false 2 true ScFail "/b.py".toList (by decide)⟩

theorem get_modification_status_of_fs_eq (fs : List Char → Option Nat)
    (path : List Char) (m : Nat) (h : fs path = some m) :
    get_modification_status fs path m = (m, filemod_status_e.not_modified) := by
  unfold get_modification_status
  rw [h]
  simp

theorem fs_eq_of_status_modified (fs : List Char → Option Nat)
    (path : List Char) (m : Nat)
    (h : (get_modification_status fs path m).2 = filemod_status_e.modified) :
    fs path = some (get_modification_status fs path m).1 := by
  unfold get_modification_status at h ⊢
  rcases hf : fs path with _ | cur
  · rw [hf] at h
    simp at h
  · rw [hf] at h
    dsimp only at h ⊢
    by_cases hc : cur = m
    · rw [if_pos hc] at h
      simp at h
    · rw [if_neg hc]

theorem fs_eq_of_status_not_modified (fs : List Char → Option Nat)
    (path : List Char) (m m' : Nat)
    (h : get_modification_status fs path m = (m', filemod_status_e.not_modified)) :
    fs path = some m' := by
  unfold get_modification_status at h
  rcases hf : fs path with _ | cur
  · rw [hf] at h
    simp at h
  · rw [hf] at h
    dsimp only at h
    by_cases hc : cur = m
    · rw [if_pos hc] at h
      simp only [Prod.mk.injEq] at h
      rw [hc, h.1]
    · rw [if_neg hc] at h
      simp at h

/-- When the manifest sweep reports `not_modified`, every (updated) entry
agrees with the filesystem. -/
theorem idx_result_sync (fs : List Char → Option Nat) :
    ∀ l, (is_any_dep_index_modified fs l).2 = filemod_status_e.not_modified →
      ∀ fi ∈ (is_any_dep_index_modified fs l).1,
        fs fi.file_path = some fi.modified_time := by
  intro l
  induction l with
  | nil =>
      intro _ fi hfi
      simp [is_any_dep_index_modified] at hfi
  | cons f rest ih =>
      intro h fi hfi
      simp only [is_any_dep_index_modified] at h hfi
      rcases hp : get_modification_status fs f.file_path f.modified_time with ⟨m', st⟩
      rw [hp] at h hfi
      dsimp only at h hfi
      cases st
      · simp at h
      · rcases List.mem_cons.mp hfi with rfl | hfi'
        · exact fs_eq_of_status_not_modified fs f.file_path f.modified_time m' hp
        · exact ih h fi hfi'
      · simp at h

/-- A sweep over entries that agree with the filesystem reports
`not_modified` and leaves the list unchanged. -/
theorem idx_sync_id (fs : List Char → Option Nat) :
    ∀ l, (∀ fi ∈ l, fs fi.file_path = some fi.modified_time) →
      is_any_dep_index_modified fs l = (l, filemod_status_e.not_modified) := by
  intro l
  induction l with
  | nil => intro _; rfl
  | cons f rest ih =>
      intro h
      simp only [is_any_dep_index_modified]
      rw [get_modification_status_of_fs_eq fs f.file_path f.modified_time
            (h f (List.mem_cons_self _ _))]
      dsimp only
      rw [ih (fun fi hfi => h fi (List.mem_cons_of_mem _ hfi))]

/-- If the trigger phase lets the tick continue, either there is no trigger
file or the (updated) stored trigger time now agrees with the filesystem. -/
theorem triggerPhase_continue_sync (w : World) (S : active_script_info_t)
    (h : (triggerPhase w S).2.1 = true) :
    (triggerPhase w S).1.trigger_file.file_path = [] ∨
    w.mtime ((triggerPhase w S).1.trigger_file.file_path)
      = some ((triggerPhase w S).1.trigger_file.modified_time) := by
  unfold triggerPhase at h ⊢
  by_cases hp : S.trigger_file.file_path = []
  · rw [if_pos hp] at h ⊢
    exact Or.inl hp
  · rw [if_neg hp] at h ⊢
    dsimp only at h ⊢
    by_cases hm : (get_modification_status w.mtime S.trigger_file.file_path
        S.trigger_file.modified_time).2 = filemod_status_e.modified
    · rw [if_pos hm]
      right
      exact fs_eq_of_status_modified w.mtime _ _ hm
    · rw [if_neg hm] at h
      simp at h

/-- A trigger file whose stored time agrees with the filesystem breaks the
tick: the phase reports "do not continue" and the state is unchanged. -/
theorem triggerPhase_synced_break (w : World) (S : active_script_info_t)
    (hne : S.trigger_file.file_path ≠ [])
    (hs : w.mtime S.trigger_file.file_path = some S.trigger_file.modified_time) :
    triggerPhase w S = (S, false, false) := by
  unfold triggerPhase
  rw [if_neg hne]
  dsimp only
  rw [get_modification_status_of_fs_eq _ _ _ hs]
  dsimp only
  rw [if_neg (by simp)]

/-- The dependency whose reload failed is stored back with its time already
updated to the filesystem's. -/
theorem depsLoopGo_failed_sync (w : World) (Sctx : active_script_info_t) :
    ∀ l p, (depsLoopGo w Sctx l).2.2.1 = some p →
      ∃ d', (p, d') ∈ (depsLoopGo w Sctx l).1 ∧
        w.mtime d'.file_path = some d'.modified_time := by
  intro l
  induction l with
  | nil => intro p h; simp [depsLoopGo] at h
  | cons qd rest ih =>
      intro p h
      obtain ⟨q, d⟩ := qd
      simp only [depsLoopGo] at h ⊢
      rcases hp : get_modification_status w.mtime d.file_path d.modified_time with ⟨m', st⟩
      rw [hp] at h
      dsimp only at h ⊢
      by_cases hst : st = filemod_status_e.modified
      · rw [if_pos hst] at h ⊢
        by_cases hrc : d.reload_cmd ≠ []
        · rw [if_pos hrc] at h ⊢
          by_cases hex : execute_reload_directive w Sctx
              {d with modified_time := m'} = true
          · rw [if_pos hex] at h ⊢
            obtain ⟨d', hd1, hd2⟩ := ih p h
            exact ⟨d', List.mem_cons_of_mem _ hd1, hd2⟩
          · rw [if_neg hex] at h ⊢
            obtain rfl : q = p := by simpa using h
            refine ⟨{d with modified_time := m'}, List.mem_cons_self _ _, ?_⟩
            have hfs := fs_eq_of_status_modified w.mtime d.file_path d.modified_time
              (by rw [hp]; exact hst)
            rw [hp] at hfs
            exact hfs
        · rw [if_neg hrc] at h ⊢
          obtain ⟨d', hd1, hd2⟩ := ih p h
          exact ⟨d', List.mem_cons_of_mem _ hd1, hd2⟩
      · rw [if_neg hst] at h ⊢
        obtain ⟨d', hd1, hd2⟩ := ih p h
        exact ⟨d', List.mem_cons_of_mem _ hd1, hd2⟩

/-- Only deps present in the map have their reload command run. -/
theorem depsLoopGo_att_keys (w : World) (Sctx : active_script_info_t) :
    ∀ l q, q ∈ (depsLoopGo w Sctx l).2.2.2 → q ∈ l.map Prod.fst := by
  intro l
  induction l with
  | nil => intro q h; simp [depsLoopGo] at h
  | cons qd rest ih =>
      intro q h
      obtain ⟨k, d⟩ := qd
      simp only [depsLoopGo] at h
      rcases hp : get_modification_status w.mtime d.file_path d.modified_time with ⟨m', st⟩
      rw [hp] at h
      dsimp only at h
      simp only [List.map_cons, List.mem_cons]
      by_cases hst : st = filemod_status_e.modified
      · rw [if_pos hst] at h
        by_cases hrc : d.reload_cmd ≠ []
        · rw [if_pos hrc] at h
          by_cases hex : execute_reload_directive w Sctx
              {d with modified_time := m'} = true
          · rw [if_pos hex] at h
            dsimp only at h
            rcases List.mem_cons.mp h with rfl | h'
            · exact Or.inl rfl
            · exact Or.inr (ih q h')
          · rw [if_neg hex] at h
            dsimp only at h
            rcases List.mem_cons.mp h with rfl | h'
            · exact Or.inl rfl
            · simp at h'
        · rw [if_neg hrc] at h
          exact Or.inr (ih q h)
      · rw [if_neg hst] at h
        exact Or.inr (ih q h)

/-- A dependency whose stored time already agrees with the filesystem is
never attempted by the loop (its probe reports `not_modified`). -/
theorem depsLoopGo_no_reattempt (w : World) (Sctx : active_script_info_t) :
    ∀ l p d', (p, d') ∈ l →
      w.mtime d'.file_path = some d'.modified_time →
      (l.map Prod.fst).Nodup →
      p ∉ (depsLoopGo w Sctx l).2.2.2 := by
  intro l
  induction l with
  | nil => intro p d' hm _ _; simp at hm
  | cons qd rest ih =>
      intro p d' hm hs hnd
      obtain ⟨q, e⟩ := qd
      simp only [List.map_cons, List.nodup_cons] at hnd
      obtain ⟨hq_not, hnd'⟩ := hnd
      simp only [depsLoopGo]
      rcases List.mem_cons.mp hm with heq | hm'
      · simp only [Prod.mk.injEq] at heq
        obtain ⟨rfl, rfl⟩ := heq
        rw [get_modification_status_of_fs_eq w.mtime d'.file_path d'.modified_time hs]
        dsimp only
        rw [if_neg (by simp)]
        intro hin
        exact hq_not (depsLoopGo_att_keys w Sctx rest p hin)
      · have hq_ne : q ≠ p := by
          intro he
          subst he
          exact hq_not (List.mem_map_of_mem Prod.fst hm')
        rcases hp : get_modification_status w.mtime e.file_path e.modified_time with ⟨m', st⟩
        dsimp only
        by_cases hst : st = filemod_status_e.modified
        · rw [if_pos hst]
          by_cases hrc : e.reload_cmd ≠ []
          · rw [if_pos hrc]
            by_cases hex : execute_reload_directive w Sctx
                {e with modified_time := m'} = true
            · rw [if_pos hex]
              dsimp only
              intro hin
              rcases List.mem_cons.mp hin with rfl | hin'
              · exact hq_ne rfl
              · exact ih p d' hm' hs hnd' hin'
            · rw [if_neg hex]
              dsimp only
              intro hin
              simp only [List.mem_singleton] at hin
              exact hq_ne hin.symm
          · rw [if_neg hrc]
            dsimp only
            exact ih p d' hm' hs hnd'
        · rw [if_neg hst]
          dsimp only
          exact ih p d' hm' hs hnd'

/-- With an empty dependency map, no reload can fail. -/
theorem tickDeps_nil_failedAt (w : World) (interval : Nat) (withUndo : Bool)
    (active del : Bool) (S3 : active_script_info_t)
    (h : S3.dep_scripts = []) :
    (tickDeps w interval withUndo active del S3).reloadFailedAt = none := by
  unfold tickDeps
  rw [h]
  simp only [depsLoopGo]
  dsimp only
  split
  · rfl
  · split <;> rfl

/-- Inversion of a failed lower half: the loop reported the failure, the
resulting state is the input with the loop's updated entries, and the
monitor flag is unchanged. -/
theorem tickDeps_failed_inv (w : World) (interval : Nat) (withUndo : Bool)
    (active del : Bool) (S3 : active_script_info_t) (p : List Char)
    (h : (tickDeps w interval withUndo active del S3).reloadFailedAt = some p) :
    (depsLoopGo w S3 S3.dep_scripts).2.2.1 = some p ∧
    (tickDeps w interval withUndo active del S3).S =
      {S3 with dep_scripts := (depsLoopGo w S3 S3.dep_scripts).1} ∧
    (tickDeps w interval withUndo active del S3).active = active := by
  unfold tickDeps at h ⊢
  dsimp only at h ⊢
  rcases hL : (depsLoopGo w S3 S3.dep_scripts).2.2.1 with _ | p'
  · rw [hL] at h
    dsimp only at h
    split at h
    · simp at h
    · split at h <;> simp at h
  · rw [hL] at h
    dsimp only at h
    obtain rfl : p' = p := by simpa using h
    exact ⟨rfl, rfl, rfl⟩

/-- If the whole state already agrees with the filesystem except possibly
the dependency entry `(p, d')` — which does agree — then a tick on it never
runs `p`'s reload command. -/
theorem tick_no_reattempt (w : World) (interval : Nat) (withUndo : Bool)
    (fuel : Nat) (T : active_script_info_t) (p : List Char) (d' : script_info_t)
    (hfp : T.file_path ≠ [])
    (htrig : T.trigger_file.file_path = [] ∨
       w.mtime T.trigger_file.file_path = some T.trigger_file.modified_time)
    (hidx : ∀ fi ∈ T.dep_indices, w.mtime fi.file_path = some fi.modified_time)
    (hnd : (T.dep_scripts.map Prod.fst).Nodup)
    (hmem : (p, d') ∈ T.dep_scripts)
    (hsync : w.mtime d'.file_path = some d'.modified_time) :
    p ∉ (filemon_timer_cb w interval withUndo fuel true T).reloadsRun := by
  unfold filemon_timer_cb
  dsimp only
  rw [if_neg (by simp [hfp])]
  by_cases hend : T.trigger_file.file_path = []
  · have ht : triggerPhase w T = (T, true, false) := by
      unfold triggerPhase
      rw [if_pos hend]
    rw [ht]
    dsimp only
    rw [if_neg (by simp)]
    rw [idx_sync_id w.mtime T.dep_indices hidx]
    dsimp only
    rw [if_neg (by simp), if_neg (by simp)]
    -- the lower half runs on (an eta-expansion of) `T` itself
    unfold tickDeps
    dsimp only
    have hnot : p ∉ (depsLoopGo w
        ({T with dep_indices := T.dep_indices}) T.dep_scripts).2.2.2 :=
      depsLoopGo_no_reattempt w _ T.dep_scripts p d' hmem hsync hnd
    split
    · exact hnot
    · split
      · exact hnot
      · split
        · exact hnot
        · exact hnot
  · have hs := htrig.resolve_left hend
    rw [triggerPhase_synced_break w T hend hs]
    dsimp only
    rw [if_pos rfl]
    simp

/-- C4 (amended): a tick aborted by a failed reload directive does **not**
retry that dependency's reload on the following tick when the filesystem is
unchanged: the dependency's stored time was already updated before the
reload ran, so the next probe reports `not_modified` (the reload re-runs
only when the dependency's file changes again). -/
theorem c4_amended (w : World) (interval : Nat) (withUndo : Bool)
    (fuel fuel2 : Nat) (active : Bool) (S : active_script_info_t) (p : List Char)
    (hnd : (S.dep_scripts.map Prod.fst).Nodup)
    (hfail : (filemon_timer_cb w interval withUndo fuel active S).reloadFailedAt
      = some p) :
    p ∉ (filemon_timer_cb w interval withUndo fuel2
          (filemon_timer_cb w interval withUndo fuel active S).active
          (filemon_timer_cb w interval withUndo fuel active S).S).reloadsRun := by
  have hfail' := hfail
  unfold filemon_timer_cb at hfail'
  dsimp only at hfail'
  by_cases hgate : (active = false ∨ S.file_path = [])
  · rw [if_pos hgate] at hfail'
    simp at hfail'
  · rw [if_neg hgate] at hfail'
    push_neg at hgate
    obtain ⟨ha, hfp⟩ := hgate
    have ha' : active = true := by
      cases active
      · exact absurd rfl ha
      · rfl
    subst ha'
    by_cases htr : (triggerPhase w S).2.1 = false
    · rw [if_pos htr] at hfail'
      simp at hfail'
    · rw [if_neg htr] at hfail'
      by_cases hmod : (is_any_dep_index_modified w.mtime
          (triggerPhase w S).1.dep_indices).2 = filemod_status_e.modified
      · rw [if_pos hmod] at hfail'
        simp at hfail'
      · rw [if_neg hmod] at hfail'
        by_cases hclr : ((is_any_dep_index_modified w.mtime
              (triggerPhase w S).1.dep_indices).2 = filemod_status_e.not_found ∧
            ({(triggerPhase w S).1 with
                dep_indices := (is_any_dep_index_modified w.mtime
                  (triggerPhase w S).1.dep_indices).1} :
              active_script_info_t).dep_scripts ≠ [])
        · rw [if_pos hclr] at hfail'
          rw [tickDeps_nil_failedAt w interval withUndo true
              (triggerPhase w S).2.2 _ rfl] at hfail'
          simp at hfail'
        · rw [if_neg hclr] at hfail'
          obtain ⟨hL, hS, hA⟩ := tickDeps_failed_inv w interval withUndo true
            (triggerPhase w S).2.2 _ p hfail'
          have htr' : (triggerPhase w S).2.1 = true := by
            cases hb : (triggerPhase w S).2.1
            · exact absurd hb htr
            · rfl
          have htrig_sync := triggerPhase_continue_sync w S htr'
          have hdeps_eq : ({(triggerPhase w S).1 with
              dep_indices := (is_any_dep_index_modified w.mtime
                (triggerPhase w S).1.dep_indices).1} :
              active_script_info_t).dep_scripts = S.dep_scripts :=
            (triggerPhase_frame w S).1
          have hdep_ne : ({(triggerPhase w S).1 with
              dep_indices := (is_any_dep_index_modified w.mtime
                (triggerPhase w S).1.dep_indices).1} :
              active_script_info_t).dep_scripts ≠ [] := by
            intro hnil
            rw [tickDeps_nil_failedAt w interval withUndo true
                (triggerPhase w S).2.2 _ hnil] at hfail'
            simp at hfail'
          have hixnm : (is_any_dep_index_modified w.mtime
              (triggerPhase w S).1.dep_indices).2 = filemod_status_e.not_modified := by
            cases hix2 : (is_any_dep_index_modified w.mtime
                (triggerPhase w S).1.dep_indices).2
            · exact absurd ⟨hix2, hdep_ne⟩ hclr
            · rfl
            · exact absurd hix2 hmod
          have hidx_sync : ∀ fi ∈ (is_any_dep_index_modified w.mtime
              (triggerPhase w S).1.dep_indices).1,
              w.mtime fi.file_path = some fi.modified_time :=
            idx_result_sync w.mtime (triggerPhase w S).1.dep_indices hixnm
          obtain ⟨d', hmem', hsync'⟩ := depsLoopGo_failed_sync w _ _ p hL
          have hR : filemon_timer_cb w interval withUndo fuel true S =
              tickDeps w interval withUndo true (triggerPhase w S).2.2
                {(triggerPhase w S).1 with
                  dep_indices := (is_any_dep_index_modified w.mtime
                    (triggerPhase w S).1.dep_indices).1} := by
            unfold filemon_timer_cb
            dsimp only
            rw [if_neg (by simp [hfp]), if_neg htr, if_neg hmod, if_neg hclr]
          rw [hR, hA, hS]
          refine tick_no_reattempt w interval withUndo fuel2 _ p d' ?_ ?_ ?_ ?_ hmem' hsync'
          · show (triggerPhase w S).1.file_path ≠ []
            rw [(triggerPhase_frame w S).2]
            exact hfp
          · exact htrig_sync
          · exact hidx_sync
          · show (((depsLoopGo w _ _).1).map Prod.fst).Nodup
            rw [depsLoopGo_keys, hdeps_eq]
            exact hnd

/-- C4 counterexample: in the concrete scenario the first tick aborts with a
failed reload of `/b.py`, the filesystem does not change, and the following
tick runs **no** reload directive at all — the failed reload is not retried
(the claim says it must be). -/
theorem c4_counterexample :
    (filemon_timer_cb wFail 500 false 2 true ScFail).reloadFailedAt
      = some "/b.py".toList ∧
    (filemon_timer_cb wFail 500 false 2
        (filemon_timer_cb wFail 500 false 2 true ScFail).active
        (filemon_timer_cb wFail 500 false 2 true ScFail).S).reloadsRun = [] := by
  refine ⟨by decide, by decide⟩

theorem c4_amended_witness :
    ((ScFail.dep_scripts.map Prod.fst).Nodup ∧
     (filemon_timer_cb wFail 500 false 2 true ScFail).reloadFailedAt
       = some "/b.py".toList) ∧
    "/b.py".toList ∉ (filemon_timer_cb wFail 500 false 3
        (filemon_timer_cb wFail 500 false 2 true ScFail).active
        (filemon_timer_cb wFail 500 false 2 true ScFail).S).reloadsRun :=
  ⟨⟨by decide, by decide⟩,
   c4_amended wFail 500 false 2 3 true ScFail "/b.py".toList (by decide) (by decide)⟩

/-- C9 counterexample: the claimed equivalence "`expand(s) = s` iff `s`
contains no `$`" fails at `s = "$"`: a lone dollar sign matches nothing
(the pattern needs a closing `$`), so it is a fixed point of expansion even
though it contains `$`. -/
theorem c9_counterexample :
    ¬ ((expand_string E0 ctx0 ['$'] = ['$']) ↔ '$' ∉ (['$'] : List Char)) := by
  decide

/-- C9 (amended): if `s` contains no `$` then `expand(s) = s`; the converse
does not hold (see the counterexample). -/
theorem c9_amended (E : ExpandEnv) (ctx : expand_ctx_t) (s : List Char)
    (h : '$' ∉ s) : expand_string E ctx s = s :=
  expandCore_of_not_mem (expandRepl E ctx) s h

theorem c9_amended_witness :
    '$' ∉ "abc".toList ∧ expand_string E0 ctx0 "abc".toList = "abc".toList :=
  ⟨by decide, c9_amended E0 ctx0 "abc".toList (by decide)⟩

/-- C7 counterexample: with `FOO` unset, `$env:FOO$` does not expand to the
empty string — it expands to the raw inner text `env:FOO` (the callback falls
through to `return m.str(1)`, qscripts.cpp:433-439). -/
theorem c7_counterexample :
    E0.env "FOO".toList = none ∧
    expand_string E0 ctx0 "$env:FOO$".toList = "env:FOO".toList ∧
    "env:FOO".toList ≠ ([] : List Char) := by
  refine ⟨rfl, ?_, by decide⟩
  decide

/-- C7 (amended): an occurrence of `$env:NAME$` with `NAME` unset expands to
the raw inner text `env:NAME` (not to the empty string). -/
theorem c7_amended (E : ExpandEnv) (ctx : expand_ctx_t)
    (pre name post : List Char)
    (henv : E.env name = none) (hpre : '$' ∉ pre) (hpost : '$' ∉ post)
    (hname1 : '$' ∉ name) (hname2 : '\n' ∉ name) :
    expand_string E ctx (pre ++ ('$' :: ((envTok ++ name) ++ '$' :: post))) =
      pre ++ ((envTok ++ name) ++ post) := by
  have hinner1 : '$' ∉ envTok ++ name := by
    simp only [List.mem_append, not_or, envTok]
    exact ⟨by decide, hname1⟩
  have hinner2 : '\n' ∉ envTok ++ name := by
    simp only [List.mem_append, not_or, envTok]
    exact ⟨by decide, hname2⟩
  have hne : envTok ++ name ≠ [] := by simp [envTok]
  unfold expand_string
  rw [expandCore_append _ _ _ hpre, expandCore_token _ _ _ hne hinner1 hinner2,
      expandRepl_env_unset E ctx name henv,
      expandCore_of_not_mem _ _ hpost]

theorem get_value_some_shape (line key tv : List Char)
    (h : get_value line key = some tv) : ∃ t, line = key ++ t := by
  unfold get_value at h
  by_cases hc : strncmpEq key line = true
  · exact strncmpEq_true_exists _ _ hc
  · rw [if_neg (by simpa using hc)] at h
    exact absurd h (by simp)

/-- A `/triggerfile` line fails the comment test and the `/pkgbase` and
`/reload` prefix tests. -/
theorem trigger_line_checks (t : List Char) :
    get_value (triggerKey ++ t) pkgbaseKey = none ∧
    get_value (triggerKey ++ t) reloadKey = none ∧
    ((triggerKey ++ t) = [] || isCommentLine (triggerKey ++ t)) = false := by
  refine ⟨?_, ?_, ?_⟩
  · simp [get_value, pkgbaseKey, triggerKey, strncmpEq]
  · simp [get_value, reloadKey, triggerKey, strncmpEq]
  · simp [isCommentLine, triggerKey, strncmpEq]

/-- C5 counterexample: the line `/pkgbaseZ/p` — where the `/pkgbase` prefix is
followed by `Z`, not by a space or end-of-line — is nonetheless treated as a
`/pkgbase` directive: the character after the prefix is skipped whatever it
is, and `pkg_base` is set from the remainder `/p`. -/
theorem c5_counterexample :
    (processLine wEmpty recNone (ctxTop, clearScript) "/pkgbaseZ/p".toList).1.pkg_base
      = "/p".toList ∧
    ctxTop.pkg_base ≠ "/p".toList ∧
    (processLine wEmpty recNone (ctxTop, clearScript) "/pkgbaseZ/p".toList).2
      = clearScript := by
  refine ⟨by decide, by decide, by decide⟩

/-- C5 (amended): `get_value` recognizes a directive whenever the prefix
matches character-wise, regardless of what follows: with the prefix followed
by end-of-line the value is empty; otherwise the single character after the
prefix — whatever it is, not necessarily a space — is skipped and the value is
the remainder; a line that does not start with the prefix is not treated as
the directive. -/
theorem c5_amended :
    (∀ (key : List Char) (c : Char) (rest : List Char),
        get_value (key ++ c :: rest) key = some rest) ∧
    (∀ key : List Char, get_value key key = some []) ∧
    (∀ key str : List Char, strncmpEq key str = false → get_value str key = none) := by
  refine ⟨?_, ?_, ?_⟩
  · intro key c rest
    unfold get_value
    rw [if_pos (strncmpEq_append_self key (c :: rest))]
    rw [List.drop_left]
  · intro key
    unfold get_value
    have h := strncmpEq_append_self key []
    rw [List.append_nil] at h
    rw [if_pos h, List.drop_length]
  · intro key str h
    unfold get_value
    rw [if_neg (by simp [h])]

theorem c5_amended_witness :
    get_value (pkgbaseKey ++ 'Z' :: "/p".toList) pkgbaseKey = some "/p".toList ∧
    strncmpEq pkgbaseKey "/zz".toList = false ∧
    get_value "/zz".toList pkgbaseKey = none :=
  ⟨c5_amended.1 pkgbaseKey 'Z' "/p".toList, by decide,
   c5_amended.2.2 pkgbaseKey "/zz".toList (by decide)⟩

/-- C6 counterexample: processing the line `/triggerfile /keep /t/go` in a
non-top-level manifest (`main_file = false`) still flips
`b_keep_trigger_file` to `true` — the `/keep` handling is not guarded by the
top-level test (qscripts.cpp:318-322). -/
theorem c6_counterexample :
    (processLine wEmpty recNone (ctxSub, clearScript)
        "/triggerfile /keep /t/go".toList).2.b_keep_trigger_file = true ∧
    clearScript.b_keep_trigger_file = false := by
  refine ⟨by decide, by decide⟩

/-- C6 (amended): in a non-top-level manifest a `/triggerfile` line leaves the
trigger `FileRef` (and everything else) unchanged, **except** that a `/keep`
sub-prefix still sets `keep_trigger := true`. -/
theorem c6_amended (w : World)
    (recurse : expand_ctx_t → active_script_info_t → active_script_info_t × Bool)
    (ctx : expand_ctx_t) (S : active_script_info_t) (rawLine tv0 : List Char)
    (hmain : ctx.main_file = false)
    (htrig : get_value (trim rawLine) triggerKey = some tv0) :
    processLine w recurse (ctx, S) rawLine =
      (ctx, {S with b_keep_trigger_file :=
               S.b_keep_trigger_file || (get_value tv0 keepKey).isSome}) := by
  obtain ⟨t, hline⟩ := get_value_some_shape _ _ _ htrig
  obtain ⟨h1, h2, h3⟩ := trigger_line_checks t
  rw [hline] at htrig
  simp only [processLine, hline, h1, h2, h3, htrig, if_false, hmain]
  rcases hk : get_value tv0 keepKey with _ | keep
  · simp [hk]
  · simp [hk]

theorem c6_amended_witness :
    (ctxSub.main_file = false ∧
      get_value (trim "/triggerfile /keep /t/go".toList) triggerKey
        = some "/keep /t/go".toList) ∧
    processLine wEmpty recNone (ctxSub, clearScript) "/triggerfile /keep /t/go".toList
      = (ctxSub, {clearScript with b_keep_trigger_file :=
          clearScript.b_keep_trigger_file ||
            (get_value "/keep /t/go".toList keepKey).isSome}) :=
  ⟨⟨rfl, by decide⟩,
   c6_amended wEmpty recNone ctxSub clearScript _ _ rfl (by decide)⟩

/-- C10: on a top-level `/triggerfile VALUE` line (without `/keep`), the
initial probe uses the raw, unexpanded `VALUE`; only afterwards is the stored
path expanded and made absolute.  So whenever the raw value does not stat
(`w.mtime tv = none`) while the file does exist at the expanded absolute path,
the trigger `FileRef` ends up holding the expanded absolute path with
modification time `0` (the probe failure left the fresh `0` in place). -/
theorem c10_trigger_probe_raw (w : World)
    (recurse : expand_ctx_t → active_script_info_t → active_script_info_t × Bool)
    (ctx : expand_ctx_t) (S : active_script_info_t) (rawLine tv : List Char)
    (t : Nat)
    (hmain : ctx.main_file = true)
    (htrig : get_value (trim rawLine) triggerKey = some tv)
    (hkeep : get_value tv keepKey = none)
    (hraw : w.mtime tv = none)
    (hfresh : S.trigger_file.modified_time = 0)
    (_hexists : w.mtime
        (make_abs_path (expand_string (expandEnvOf w S) ctx tv) ctx.base_dir)
      = some t) :
    (processLine w recurse (ctx, S) rawLine).2.trigger_file =
      ⟨make_abs_path (expand_string (expandEnvOf w S) ctx tv) ctx.base_dir, 0⟩ := by
  obtain ⟨u, hline⟩ := get_value_some_shape _ _ _ htrig
  obtain ⟨h1, h2, h3⟩ := trigger_line_checks u
  rw [hline] at htrig
  simp only [processLine, hline, h1, h2, h3, htrig, if_false, hmain, hkeep, hraw, hfresh]
  rfl

theorem c10_witness :
    (ctxTop.main_file = true ∧
     get_value (trim "/triggerfile go.txt".toList) triggerKey = some "go.txt".toList ∧
     get_value "go.txt".toList keepKey = none ∧
     wTrig.mtime "go.txt".toList = none ∧
     clearScript.trigger_file.modified_time = 0 ∧
     wTrig.mtime (make_abs_path
       (expand_string (expandEnvOf wTrig clearScript) ctxTop "go.txt".toList)
       ctxTop.base_dir) = some 9) ∧
    (processLine wTrig recNone (ctxTop, clearScript) "/triggerfile go.txt".toList).2.trigger_file =
      ⟨make_abs_path (expand_string (expandEnvOf wTrig clearScript) ctxTop "go.txt".toList)
         ctxTop.base_dir, 0⟩ :=
  ⟨⟨rfl, by decide, by decide, by decide, rfl, by decide⟩,
   c10_trigger_probe_raw wTrig recNone ctxTop clearScript _ _ 9 rfl (by decide)
     (by decide) (by decide) rfl (by decide)⟩

theorem c7_amended_witness :
    (E0.env "FOO".toList = none ∧ '$' ∉ "a/".toList ∧ '$' ∉ "/b".toList ∧
     '$' ∉ "FOO".toList ∧ '\n' ∉ "FOO".toList) ∧
    expand_string E0 ctx0
      ("a/".toList ++ ('$' :: ((envTok ++ "FOO".toList) ++ '$' :: "/b".toList))) =
      "a/".toList ++ ((envTok ++ "FOO".toList) ++ "/b".toList) :=
  ⟨⟨rfl, by decide, by decide, by decide, by decide⟩,
   c7_amended E0 ctx0 "a/".toList "FOO".toList "/b".toList rfl
     (by decide) (by decide) (by decide) (by decide)⟩

end QScripts
